import Mathlib

/-!
Shallow embedding of the task lifecycle and RPC dispatch subsystem of the
supervisely client SDK (`supervisely/api/task_api.py`) and of the Flexbox
widget (`supervisely/app/widgets/flexbox/flexbox.py`).

HTTP requests are modelled as values: each API method returns the list of
POST requests it issues (in order), together with its error outcome.  The
remote server is modelled by oracle function parameters (the status stream
polled by `wait`, the set of hashes known to the server, the response map
of `send_request`).
-/

namespace SlyTask

/-- JSON values, the payloads of the POST bodies built by the client. -/
inductive Json where
  | null : Json
  | b : Bool → Json
  | n : Int → Json
  | s : String → Json
  | arr : List Json → Json
  | obj : List (String × Json) → Json

/-- The keys of a JSON object (in order); `[]` for non-objects. -/
def Json.keys : Json → List String
  | .obj o => o.map (·.1)
  | _ => []

/-- Association-list lookup, the read of a Python dict. -/
def dictGet (d : List (String × Json)) (k : String) : Option Json :=
  match d with
  | [] => none
  | (k', v) :: rest => if k' = k then some v else dictGet rest k

/-- Python `key in obj` for a dict. -/
def hasKey (d : List (String × Json)) (k : String) : Bool :=
  d.any (fun kv => kv.1 = k)

/-- Python `d[k] = v`: replace the value in place if the key exists,
append the pair otherwise. -/
def dictSet (d : List (String × Json)) (k : String) (v : Json) :
    List (String × Json) :=
  if d.any (fun kv => kv.1 = k) then
    d.map (fun kv => if kv.1 = k then (k, v) else kv)
  else d ++ [(k, v)]

/-- One POST issued through the generic HTTP client (`self._api.post`).
`retries`/`raiseError` are `none` when the caller leaves the client's
defaults in place; `send_request` is the one method that forwards them. -/
structure ApiPost where
  method : String
  body : List (String × Json)
  retries : Option Nat := none
  raiseError : Option Bool := none

/-- `TaskApi.Status` (`task_api.py`, lines 89–107): the remote task status
enum. -/
inductive Status where
  | queued
  | consumed
  | started
  | deployed
  | error
  | finished
  | terminating
  | stopped
deriving DecidableEq, Repr

/-- The string value of each `Status` member. -/
def Status.value : Status → String
  | .queued => "queued"
  | .consumed => "consumed"
  | .started => "started"
  | .deployed => "deployed"
  | .error => "error"
  | .finished => "finished"
  | .terminating => "terminating"
  | .stopped => "stopped"

/-- Modelled from the spec: `StrEnum.values()` (from
`supervisely/collection/str_enum.py`, not under `src/`) lists the string
values of the enum members; the spec's glossary lists exactly these eight
statuses. -/
def Status.values : List String :=
  ["queued", "consumed", "started", "deployed", "error", "finished",
   "terminating", "stopped"]

/-- Statuses written as comparison constants by the client code of
`task_api.py` (`raise_for_status`, `wait`, `deploy_model`). -/
def referencedStatuses : List Status :=
  [.error, .finished, .deployed, .stopped]

/-- `TaskApi.raise_for_status`: raising is modelled as `Except.error`. -/
def raise_for_status (status : Status) : Except String Unit :=
  if status = Status.error then
    .error ("Task finished with status " ++ Status.value Status.error)
  else .ok ()

/-- Python `x or default` on an optional int argument: `None` and `0` are
both falsy and select the default. -/
def pyOrNat : Option Nat → Nat → Nat
  | none, d => d
  | some 0, d => d
  | some n, _ => n

/-- How one run of the `wait` loop ends: normal return at a given attempt
index, `TaskFinishedWithError` at a given attempt index, or
`WaitingTimeExceeded` after all attempts. -/
inductive WaitOutcome where
  | ok : Nat → WaitOutcome
  | finishedWithError : Nat → WaitOutcome
  | waitingTimeExceeded : WaitOutcome
deriving DecidableEq, Repr

/-- Observable trace of one run of the `wait` loop: its outcome, the
statuses polled (one per attempt performed), and the argument of each
`time.sleep` call, in order. -/
structure WaitTrace where
  outcome : WaitOutcome
  checked : List Status
  sleeps : List Nat
deriving DecidableEq, Repr

/-- The list `[target_status, FINISHED, DEPLOYED, STOPPED]` that `wait`
tests membership in. -/
def waitTerminal (target : Status) : List Status :=
  [target, .finished, .deployed, .stopped]

/-- The body of `TaskApi.wait`'s `for attempt in range(wait_attempts)`
loop: poll the status of attempt `i`, raise on ERROR, return on a
terminal status, otherwise sleep and continue with `n` attempts left. -/
def waitFrom (getStatus : Nat → Status) (target : Status) (timeout : Nat) :
    Nat → Nat → WaitTrace
  | _, 0 => ⟨.waitingTimeExceeded, [], []⟩
  | i, n + 1 =>
    let st := getStatus i
    if st = Status.error then ⟨.finishedWithError i, [st], []⟩
    else if st ∈ waitTerminal target then ⟨.ok i, [st], []⟩
    else
      let rest := waitFrom getStatus target timeout (i + 1) n
      ⟨rest.outcome, st :: rest.checked, timeout :: rest.sleeps⟩

/-- `TaskApi.wait` (`task_api.py`, lines 272–308).  The remote task is the
oracle `getStatus` giving the status polled at each attempt.
`MAX_WAIT_ATTEMPTS` and `WAIT_ATTEMPT_TIMEOUT_SEC` (class constants of
`ModuleWithStatus`, not under `src/`) are passed as parameters; the
defaulting `wait_attempts or self.MAX_WAIT_ATTEMPTS` is Python's truthy
`or`. -/
def wait (getStatus : Nat → Status) (target : Status)
    (wait_attempts : Option Nat) (wait_attempt_timeout_sec : Option Nat)
    (MAX_WAIT_ATTEMPTS WAIT_ATTEMPT_TIMEOUT_SEC : Nat) : WaitTrace :=
  waitFrom getStatus target
    (pyOrNat wait_attempt_timeout_sec WAIT_ATTEMPT_TIMEOUT_SEC) 0
    (pyOrNat wait_attempts MAX_WAIT_ATTEMPTS)

/-- The total waiting time reported by the `WaitingTimeExceeded` message:
`wait_attempts * effective_wait_timeout`. -/
def waitDeclaredTotal (wait_attempts effective_wait_timeout : Nat) : Nat :=
  wait_attempts * effective_wait_timeout

/-- The spec's words for C3, stated over the recorded sleep durations: the
delay "backs off" across the attempts, i.e. some later delay is strictly
larger than some earlier one. -/
def delaysBackOff (delays : List Nat) : Prop :=
  ∃ i : Fin delays.length, ∃ j : Fin delays.length,
    (i : Nat) < (j : Nat) ∧ delays.get i < delays.get j

instance (delays : List Nat) : Decidable (delaysBackOff delays) := by
  unfold delaysBackOff; infer_instance

/-! ## Bulk file upload (`TaskApi.upload_files`, lines 666–721)

Paths and hashes are strings; the local file system is the oracle
`hashFn : path → content hash` (`get_file_hash` from `supervisely/io/fs.py`,
not under `src/`, reads the file and hashes its bytes); the server side of
`check_existing_hashes` is the oracle `serverHashes`, the hashes the server
already stores. -/

/-- Modelled from the spec: `batched` (from `supervisely/_utils.py`, not
under `src/`) splits a sequence into consecutive batches of a fixed batch
size (default 50); the spec says upload proceeds "in batches".  Fuel-based
chunking; the fuel `xs.length` suffices for every positive batch size. -/
def batchedGo (n : Nat) : Nat → List α → List (List α)
  | _, [] => []
  | 0, xs => [xs]
  | fuel + 1, x :: xs => ((x :: xs).take n) :: batchedGo n fuel ((x :: xs).drop n)

/-- `batched xs n`: `xs` split into consecutive chunks of size `n`. -/
def batched (xs : List α) (n : Nat := 50) : List (List α) :=
  batchedGo n xs.length xs

/-- The `(path, name)` pairs iterated by `upload_files`
(`zip(abs_paths, names)`). -/
def pairsOf (abs_paths names : List String) : List (String × String) :=
  abs_paths.zip names

/-- The `hashes` list accumulated by `upload_files`: one locally computed
content hash per `(path, name)` pair, in order. -/
def hashesOf (abs_paths names : List String) (hashFn : String → String) :
    List String :=
  (pairsOf abs_paths names).map (fun p => hashFn p.1)

/-- `hash_to_name[h]`: the names of the input files whose path hashes to
`h`, in input order. -/
def hashToName (abs_paths names : List String) (hashFn : String → String)
    (h : String) : List String :=
  ((pairsOf abs_paths names).filter (fun p => hashFn p.1 = h)).map (·.2)

/-- `remote_hashes`: the distinct hashes of the input files that
`check_existing_hashes` reports as already present on the server.
Python's `set(hashes)` is modelled by `dedup`; the oracle `serverHashes`
is the server's store. -/
def remoteHashes (abs_paths names : List String) (hashFn : String → String)
    (serverHashes : List String) : List String :=
  ((hashesOf abs_paths names hashFn).dedup).filter
    (fun h => h ∈ serverHashes)

/-- The `files` list registered by hash: for each remote hash, one
`{name, hash}` entry per input file carrying that hash. -/
def addByHashFiles (abs_paths names : List String)
    (hashFn : String → String) (serverHashes : List String) :
    List (String × String) :=
  (remoteHashes abs_paths names hashFn serverHashes).flatMap
    (fun h => (hashToName abs_paths names hashFn h).map (fun n => (n, h)))

/-- The `zip(abs_paths, names, hashes)` triples `(path, name, hash)`. -/
def triplesOf (abs_paths names : List String) (hashFn : String → String) :
    List (String × String × String) :=
  ((pairsOf abs_paths names).zip (hashesOf abs_paths names hashFn)).map
    (fun x => (x.1.1, x.1.2, x.2))

/-- A request issued by `upload_files`: either a batch of
`tasks.files.bulk.add-by-hash` registrations `(name, hash)`, or a batch
of `tasks.files.bulk.upload` multipart uploads `(path, name, hash)` whose
file bytes are read from `path`. -/
inductive UploadReq where
  | addByHash : Int → List (String × String) → UploadReq
  | bulkUpload : Int → List (String × String × String) → UploadReq
deriving DecidableEq, Repr

/-- `TaskApi.upload_files` (lines 666–721): returns the requests issued,
in order, or the `RuntimeError` message on inconsistent input lengths. -/
def upload_files (task_id : Int) (abs_paths names : List String)
    (hashFn : String → String) (serverHashes : List String) :
    Except String (List UploadReq) :=
  if abs_paths.length ≠ names.length then
    .error "Inconsistency: len(abs_paths) != len(names)"
  else if abs_paths.length = 0 then .ok []
  else
    let remote := remoteHashes abs_paths names hashFn serverHashes
    let addReqs :=
      if remote.length ≠ 0 then
        (batched (addByHashFiles abs_paths names hashFn serverHashes)).map
          (fun b => UploadReq.addByHash task_id b)
      else []
    let upReqs :=
      (batched (triplesOf abs_paths names hashFn)).filterMap (fun b =>
        let content := b.filter (fun t => ¬ t.2.2 ∈ remote)
        if content.length > 0 then
          some (UploadReq.bulkUpload task_id content)
        else none)
    .ok (addReqs ++ upReqs)

/-- The `(name, hash)` registrations contained in a request list's
`add-by-hash` batches, concatenated in order. -/
def addItems : List UploadReq → List (String × String)
  | [] => []
  | .addByHash _ fs :: rest => fs ++ addItems rest
  | .bulkUpload _ _ :: rest => addItems rest

/-- The `(path, name, hash)` uploads contained in a request list's
`bulk.upload` batches, concatenated in order. -/
def upItems : List UploadReq → List (String × String × String)
  | [] => []
  | .addByHash _ _ :: rest => upItems rest
  | .bulkUpload _ ts :: rest => ts ++ upItems rest

/-- The task id a request of `upload_files` is addressed to. -/
def UploadReq.taskId : UploadReq → Int
  | .addByHash tid _ => tid
  | .bulkUpload tid _ => tid

/-! ## RPC channel (`send_request`, `set_fields`, `start`,
`update_status`) -/

/-- `TaskApi.send_request` (lines 928–957): builds the single
`tasks.request.direct` POST and returns it together with the parsed JSON
of the response, which the oracle `respond` provides.  The `data` argument
is typed as a dict, so the `TypeError` branch for non-dict data is
unreachable in the embedding. -/
def send_request (task_id : Int) (method : String)
    (data : List (String × Json)) (context : List (String × Json))
    (skip_response : Bool) (timeout : Int) (outside_request : Bool)
    (retries : Nat) (raise_error : Bool) (respond : ApiPost → Json) :
    List ApiPost × Json :=
  let ctx := dictSet context "outside_request" (Json.b outside_request)
  let req : ApiPost :=
    { method := "tasks.request.direct"
      body := [("taskId", Json.n task_id), ("command", Json.s method),
               ("context", Json.obj ctx), ("state", Json.obj data),
               ("skipResponse", Json.b skip_response),
               ("timeout", Json.n timeout)]
      retries := some retries
      raiseError := some raise_error }
  ([req], respond req)

/-- The validation loop of `TaskApi.set_fields`: the first `(idx, key)`
with `key not in fields[idx]`, scanning each object's keys in the order
`[ApiField.FIELD, ApiField.PAYLOAD] = ["field", "payload"]`. -/
def findMissingKey : Nat → List (List (String × Json)) →
    Option (Nat × String)
  | _, [] => none
  | idx, obj :: rest =>
    if ¬ hasKey obj "field" then some (idx, "field")
    else if ¬ hasKey obj "payload" then some (idx, "payload")
    else findMissingKey (idx + 1) rest

/-- `TaskApi.set_fields` (lines 747–755): validate every field object,
then POST the full list to `tasks.data.set`.  Returns the requests issued
and the `KeyError` data `(idx, key)` when raised. -/
def set_fields (task_id : Int) (fields : List (List (String × Json))) :
    List ApiPost × Option (Nat × String) :=
  match findMissingKey 0 fields with
  | some e => ([], some e)
  | none =>
    ([{ method := "tasks.data.set"
        body := [("taskId", Json.n task_id),
                 ("fields", Json.arr (fields.map Json.obj))] }], none)

/-- Modelled from the spec: `take_with_default` (from
`supervisely/_utils.py`, not under `src/`) returns the value when it is
not `None` and the default otherwise. -/
def take_with_default (v : Option α) (d : α) : α := v.getD d

/-- The `data` dict built by `TaskApi.start` (lines 594–619): the base
dict, then `redirectRequests` when non-empty, then `appId`/`moduleId`
when given. -/
def startData (agent_id : Int) (app_id : Option Int)
    (workspace_id : Option Int) (description : String)
    (params : Option Json) (log_level : String) (users_ids : Option (List Int))
    (app_version : String) (is_branch : Bool) (task_name : String)
    (restart_policy : String) (proxy_keep_url : Bool)
    (module_id : Option Int) (redirect_requests : List (String × Int))
    (limit_by_workspace : Bool) : List (String × Json) :=
  let advanced_settings : List (String × Json) :=
    [("limitByWorkspace", Json.b limit_by_workspace)]
  let data0 : List (String × Json) :=
    [("agentId", Json.n agent_id),
     ("workspaceId",
      match workspace_id with | some w => Json.n w | none => Json.null),
     ("description", Json.s description),
     ("params",
      take_with_default params (Json.obj [("state", Json.obj [])])),
     ("logLevel", Json.s log_level),
     ("usersIds",
      Json.arr ((take_with_default users_ids []).map Json.n)),
     ("appVersion", Json.s app_version),
     ("isBranch", Json.b is_branch),
     ("taskName", Json.s task_name),
     ("restartPolicy", Json.s restart_policy),
     ("proxyKeepUrl", Json.b proxy_keep_url),
     ("advancedSettings", Json.obj advanced_settings)]
  let data1 :=
    if redirect_requests.length > 0 then
      dictSet data0 "redirectRequests"
        (Json.obj (redirect_requests.map (fun kv => (kv.1, Json.n kv.2))))
    else data0
  let data2 :=
    match app_id with
    | some a => dictSet data1 "appId" (Json.n a)
    | none => data1
  match module_id with
  | some m => dictSet data2 "moduleId" (Json.n m)
  | none => data2

/-- `TaskApi.start` (lines 507–624), restricted to the request-building
part (the response post-processing touches no claim).  Returns the POSTs
issued and the `ValueError` message when raised. -/
def start (agent_id : Int) (app_id : Option Int)
    (workspace_id : Option Int) (description : String)
    (params : Option Json) (log_level : String) (users_ids : Option (List Int))
    (app_version : String) (is_branch : Bool) (task_name : String)
    (restart_policy : String) (proxy_keep_url : Bool)
    (module_id : Option Int) (redirect_requests : List (String × Int))
    (limit_by_workspace : Bool) : List ApiPost × Option String :=
  if app_id.isSome ∧ module_id.isSome then
    ([], some "Only one of the arguments (app_id or module_id) have to be defined")
  else if app_id.isNone ∧ module_id.isNone then
    ([], some "One of the arguments (app_id or module_id) have to be defined")
  else
    ([{ method := "tasks.run.app"
        body := startData agent_id app_id workspace_id description params
          log_level users_ids app_version is_branch task_name restart_policy
          proxy_keep_url module_id redirect_requests limit_by_workspace }],
     none)

/-- The argument of `TaskApi.update_status`: a `Status` member or a raw
string. -/
def pyStr : Sum Status String → String
  | .inl st => st.value
  | .inr raw => raw

/-- `TaskApi.update_status` (lines 1147–1167): stringify the argument,
raise `ValueError` when the string is not an allowed status value,
otherwise POST to `tasks.status.update`. -/
def update_status (task_id : Int) (status : Sum Status String) :
    List ApiPost × Option String :=
  let st := pyStr status
  if ¬ st ∈ Status.values then
    ([], some ("Invalid status value: " ++ st))
  else
    ([{ method := "tasks.status.update"
        body := [("id", Json.n task_id), ("status", Json.s st)] }], none)

end SlyTask

namespace SlyWidgets

open SlyTask (Json)

/-- The `Flexbox` widget (`flexbox.py`, lines 16–37), parametric in the
type of child widgets.  `widget_id` plays no role in the JSON payloads. -/
structure Flexbox (W : Type) where
  widgets : List W
  gap : Int
  center_content : Bool
  vertical_alignment : Option String

/-- `Flexbox.get_json_data`: `{"center": self._center_content}`. -/
def Flexbox.get_json_data (f : Flexbox W) : Json :=
  Json.obj [("center", Json.b f.center_content)]

/-- `Flexbox.get_json_state`: `{}`. -/
def Flexbox.get_json_state (_ : Flexbox W) : Json :=
  Json.obj []

end SlyWidgets

/-! ## Lemmas about the wait loop -/

namespace SlyTask

theorem waitFrom_checked_length (g : Nat → Status) (t : Status) (tmo : Nat) :
    ∀ n i, (waitFrom g t tmo i n).checked.length ≤ n := by
  intro n
  induction n with
  | zero => intro i; simp [waitFrom]
  | succ n ih =>
    intro i
    by_cases h1 : g i = Status.error
    · simp [waitFrom, h1]
    · by_cases h2 : g i ∈ waitTerminal t
      · simp [waitFrom, h1, h2]
      · simpa [waitFrom, h1, h2] using ih (i + 1)

theorem waitFrom_timeExceeded_iff (g : Nat → Status) (t : Status) (tmo : Nat) :
    ∀ n i, (waitFrom g t tmo i n).outcome = .waitingTimeExceeded ↔
      ∀ j, j < n → g (i + j) ≠ Status.error ∧ g (i + j) ∉ waitTerminal t := by
  intro n
  induction n with
  | zero => intro i; simp [waitFrom]
  | succ n ih =>
    intro i
    by_cases h1 : g i = Status.error
    · simp only [waitFrom, h1, if_pos rfl]
      constructor
      · intro hc; cases hc
      · intro hall
        exact absurd h1 (by simpa using (hall 0 (Nat.succ_pos n)).1)
    · by_cases h2 : g i ∈ waitTerminal t
      · simp only [waitFrom, if_neg h1, if_pos h2]
        constructor
        · intro hc; cases hc
        · intro hall
          exact absurd h2 (by simpa using (hall 0 (Nat.succ_pos n)).2)
      · simp only [waitFrom, if_neg h1, if_neg h2]
        rw [ih (i + 1)]
        constructor
        · intro hall j hj
          match j with
          | 0 => simpa using ⟨h1, h2⟩
          | k + 1 =>
            have := hall k (by omega)
            rwa [show i + 1 + k = i + (k + 1) by omega] at this
        · intro hall k hk
          have := hall (k + 1) (by omega)
          rwa [show i + (k + 1) = i + 1 + k by omega] at this

theorem waitFrom_ok (g : Nat → Status) (t : Status) (tmo : Nat) :
    ∀ n i k, (waitFrom g t tmo i n).outcome = .ok k →
      g k ∈ waitTerminal t ∧ g k ≠ Status.error ∧ i ≤ k ∧ k < i + n ∧
        ∀ j, i ≤ j → j < k → g j ≠ Status.error ∧ g j ∉ waitTerminal t := by
  intro n
  induction n with
  | zero => intro i k h; simp [waitFrom] at h
  | succ n ih =>
    intro i k h
    by_cases h1 : g i = Status.error
    · simp [waitFrom, h1] at h
    · by_cases h2 : g i ∈ waitTerminal t
      · simp [waitFrom, h1, h2] at h
        subst h
        exact ⟨h2, h1, Nat.le_refl i, by omega, fun j hj hjk => by omega⟩
      · simp only [waitFrom, if_neg h1, if_neg h2] at h
        obtain ⟨hterm, hne, hik, hkn, hmin⟩ := ih (i + 1) k h
        refine ⟨hterm, hne, by omega, by omega, fun j hj hjk => ?_⟩
        rcases Nat.eq_or_lt_of_le hj with rfl | hlt
        · exact ⟨h1, h2⟩
        · exact hmin j (by omega) hjk

theorem waitFrom_sleeps_const (g : Nat → Status) (t : Status) (tmo : Nat) :
    ∀ n i d, d ∈ (waitFrom g t tmo i n).sleeps → d = tmo := by
  intro n
  induction n with
  | zero => intro i d hd; simp [waitFrom] at hd
  | succ n ih =>
    intro i d hd
    by_cases h1 : g i = Status.error
    · simp [waitFrom, h1] at hd
    · by_cases h2 : g i ∈ waitTerminal t
      · simp [waitFrom, h1, h2] at hd
      · simp only [waitFrom, if_neg h1, if_neg h2, List.mem_cons] at hd
        rcases hd with rfl | hd
        · rfl
        · exact ih (i + 1) d hd

theorem waitFrom_timeExceeded_sleeps (g : Nat → Status) (t : Status)
    (tmo : Nat) : ∀ n i,
    (waitFrom g t tmo i n).outcome = .waitingTimeExceeded →
      (waitFrom g t tmo i n).sleeps = List.replicate n tmo := by
  intro n
  induction n with
  | zero => intro i _; simp [waitFrom]
  | succ n ih =>
    intro i h
    by_cases h1 : g i = Status.error
    · simp [waitFrom, h1] at h
    · by_cases h2 : g i ∈ waitTerminal t
      · simp [waitFrom, h1, h2] at h
      · simp only [waitFrom, if_neg h1, if_neg h2] at h ⊢
        rw [List.replicate_succ, ih (i + 1) h]

/-! ## Lemmas about batching and the upload request lists -/

theorem batchedGo_join (n : Nat) (hn : 0 < n) :
    ∀ fuel (xs : List α), xs.length ≤ fuel →
      (batchedGo n fuel xs).flatten = xs := by
  intro fuel
  induction fuel with
  | zero =>
    intro xs hxs
    have hx : xs = [] := List.eq_nil_of_length_eq_zero (Nat.le_zero.mp hxs)
    subst hx
    simp [batchedGo]
  | succ fuel ih =>
    intro xs hxs
    match xs with
    | [] => simp [batchedGo]
    | x :: xs' =>
      have hlen : ((x :: xs').drop n).length ≤ fuel := by
        simp only [List.length_drop, List.length_cons]
        simp only [List.length_cons] at hxs
        omega
      simp only [batchedGo, List.flatten_cons]
      rw [ih ((x :: xs').drop n) hlen]
      exact List.take_append_drop n (x :: xs')

theorem batched_join (xs : List α) : (batched xs).flatten = xs :=
  batchedGo_join 50 (by omega) xs.length xs (Nat.le_refl _)

theorem addItems_append (a b : List UploadReq) :
    addItems (a ++ b) = addItems a ++ addItems b := by
  induction a with
  | nil => simp [addItems]
  | cons r rest ih => cases r <;> simp [addItems, ih]

theorem upItems_append (a b : List UploadReq) :
    upItems (a ++ b) = upItems a ++ upItems b := by
  induction a with
  | nil => simp [upItems]
  | cons r rest ih => cases r <;> simp [upItems, ih]

theorem addItems_map_addByHash (tid : Int)
    (bs : List (List (String × String))) :
    addItems (bs.map (fun b => UploadReq.addByHash tid b)) = bs.flatten := by
  induction bs with
  | nil => simp [addItems]
  | cons b rest ih => simp [addItems, ih]

theorem upItems_map_addByHash (tid : Int)
    (bs : List (List (String × String))) :
    upItems (bs.map (fun b => UploadReq.addByHash tid b)) = [] := by
  induction bs with
  | nil => simp [upItems]
  | cons b rest ih => simp [upItems, ih]

theorem upItems_filterMap_upload (tid : Int)
    (P : String × String × String → Bool)
    (bs : List (List (String × String × String))) :
    upItems (bs.filterMap (fun b =>
        let content := b.filter P
        if content.length > 0 then
          some (UploadReq.bulkUpload tid content)
        else none)) = bs.flatten.filter P := by
  induction bs with
  | nil => simp [upItems]
  | cons b rest ih =>
    by_cases hb : (b.filter P).length > 0
    · simp [List.filterMap_cons, hb, upItems, ih, List.filter_append]
    · have hempty : b.filter P = [] := by
        cases hfp : b.filter P with
        | nil => rfl
        | cons y ys => rw [hfp] at hb; simp at hb
      simp [List.filterMap_cons, hb, ih, hempty, List.filter_append]

theorem addItems_filterMap_upload (tid : Int)
    (P : String × String × String → Bool)
    (bs : List (List (String × String × String))) :
    addItems (bs.filterMap (fun b =>
        let content := b.filter P
        if content.length > 0 then
          some (UploadReq.bulkUpload tid content)
        else none)) = [] := by
  induction bs with
  | nil => simp [addItems]
  | cons b rest ih =>
    by_cases hb : (b.filter P).length > 0
    · simp [List.filterMap_cons, hb, addItems, ih]
    · simp [List.filterMap_cons, hb, ih]

theorem taskId_map_addByHash (tid : Int)
    (bs : List (List (String × String))) :
    ∀ r ∈ bs.map (fun b => UploadReq.addByHash tid b),
      UploadReq.taskId r = tid := by
  intro r hr
  obtain ⟨b, _, rfl⟩ := List.mem_map.mp hr
  rfl

theorem taskId_filterMap_upload (tid : Int)
    (P : String × String × String → Bool)
    (bs : List (List (String × String × String))) :
    ∀ r ∈ bs.filterMap (fun b =>
        let content := b.filter P
        if content.length > 0 then
          some (UploadReq.bulkUpload tid content)
        else none),
      UploadReq.taskId r = tid := by
  intro r hr
  obtain ⟨b, _, hb⟩ := List.mem_filterMap.mp hr
  by_cases hc : (b.filter P).length > 0
  · simp only [hc, if_pos] at hb
    cases hb
    rfl
  · simp only [hc, if_neg] at hb
    cases hb

theorem zip_self_map (l : List α) (f : α → β) :
    l.zip (l.map f) = l.map (fun x => (x, f x)) := by
  induction l with
  | nil => rfl
  | cons x xs ih => simp [List.zip_cons_cons, ih]

theorem triplesOf_eq (abs_paths names : List String)
    (hashFn : String → String) :
    triplesOf abs_paths names hashFn =
      (pairsOf abs_paths names).map (fun pr => (pr.1, pr.2, hashFn pr.1)) := by
  unfold triplesOf hashesOf
  rw [zip_self_map]
  simp [List.map_map, Function.comp]

theorem mem_remoteHashes (abs_paths names : List String)
    (hashFn : String → String) (serverHashes : List String) (h : String) :
    h ∈ remoteHashes abs_paths names hashFn serverHashes ↔
      h ∈ hashesOf abs_paths names hashFn ∧ h ∈ serverHashes := by
  unfold remoteHashes
  simp [List.mem_filter, List.mem_dedup]

theorem mem_addByHashFiles (abs_paths names : List String)
    (hashFn : String → String) (serverHashes : List String)
    (nm hs : String) :
    (nm, hs) ∈ addByHashFiles abs_paths names hashFn serverHashes ↔
      hs ∈ remoteHashes abs_paths names hashFn serverHashes ∧
        ∃ p, (p, nm) ∈ pairsOf abs_paths names ∧ hashFn p = hs := by
  unfold addByHashFiles hashToName
  simp only [List.mem_flatMap, List.mem_map, List.mem_filter,
    Prod.mk.injEq, decide_eq_true_eq]
  constructor
  · rintro ⟨a, ha, nm', ⟨pr, ⟨hpr, hhash⟩, hsnd⟩, rfl, rfl⟩
    refine ⟨ha, pr.1, ?_, hhash⟩
    rw [← hsnd]
    simpa using hpr
  · rintro ⟨ha, p, hp, hhash⟩
    exact ⟨hs, ha, nm, ⟨(p, nm), ⟨hp, hhash⟩, rfl⟩, rfl, rfl⟩

theorem upload_files_eq (tid : Int) (abs_paths names : List String)
    (hashFn : String → String) (serverHashes : List String)
    (h : abs_paths.length = names.length) :
    ∃ reqs, upload_files tid abs_paths names hashFn serverHashes = .ok reqs ∧
      addItems reqs = addByHashFiles abs_paths names hashFn serverHashes ∧
      upItems reqs = (triplesOf abs_paths names hashFn).filter
        (fun t => ¬ t.2.2 ∈ remoteHashes abs_paths names hashFn serverHashes) ∧
      ∀ r ∈ reqs, UploadReq.taskId r = tid := by
  unfold upload_files
  rw [if_neg (by omega)]
  by_cases hz : abs_paths.length = 0
  · rw [if_pos hz]
    have hp : abs_paths = [] := List.eq_nil_of_length_eq_zero hz
    have hn : names = [] := List.eq_nil_of_length_eq_zero (by omega)
    subst hp hn
    refine ⟨[], rfl, ?_, ?_, by simp⟩
    · simp [addItems, addByHashFiles, remoteHashes, hashesOf, pairsOf]
    · simp [upItems, triplesOf, hashesOf, pairsOf]
  · rw [if_neg hz]
    refine ⟨_, rfl, ?_, ?_, ?_⟩
    · rw [addItems_append]
      rw [addItems_filterMap_upload]
      rw [List.append_nil]
      by_cases hr :
          (remoteHashes abs_paths names hashFn serverHashes).length ≠ 0
      · rw [if_pos hr, addItems_map_addByHash, batched_join]
      · rw [if_neg hr]
        have hrezero : remoteHashes abs_paths names hashFn serverHashes = [] :=
          List.eq_nil_of_length_eq_zero (by omega)
        simp [addItems, addByHashFiles, hrezero]
    · rw [upItems_append]
      rw [upItems_filterMap_upload]
      rw [batched_join]
      by_cases hr :
          (remoteHashes abs_paths names hashFn serverHashes).length ≠ 0
      · rw [if_pos hr, upItems_map_addByHash, List.nil_append]
      · rw [if_neg hr]
        rw [show upItems [] = [] from rfl, List.nil_append]
    · intro r hr
      rcases List.mem_append.mp hr with hr | hr
      · by_cases hc :
            (remoteHashes abs_paths names hashFn serverHashes).length ≠ 0
        · rw [if_pos hc] at hr
          exact taskId_map_addByHash tid _ r hr
        · rw [if_neg hc] at hr
          cases hr
      · exact taskId_filterMap_upload tid _ _ r hr

/-! ## Lemmas about dicts and the field validation loop -/

theorem dictGet_dictSet (d : List (String × Json)) (k : String) (v : Json) :
    dictGet (dictSet d k v) k = some v := by
  unfold dictSet
  by_cases h : d.any (fun kv => kv.1 = k)
  · rw [if_pos h]
    induction d with
    | nil => simp at h
    | cons kv rest ih =>
      obtain ⟨k', v'⟩ := kv
      by_cases hk : k' = k
      · have hhead : (if (k', v').1 = k then (k, v) else (k', v')) = (k, v) :=
          if_pos hk
        rw [List.map_cons, hhead]
        simp [dictGet]
      · have hhead : (if (k', v').1 = k then (k, v) else (k', v')) = (k', v') :=
          if_neg hk
        rw [List.map_cons, hhead]
        simp only [dictGet, hk, if_false]
        exact ih (by simpa [List.any_cons, hk] using h)
  · rw [if_neg h]
    induction d with
    | nil => simp [dictGet]
    | cons kv rest ih =>
      obtain ⟨k', v'⟩ := kv
      simp only [List.any_cons, Bool.or_eq_true, decide_eq_true_eq] at h
      push_neg at h
      obtain ⟨hk, hr⟩ := h
      simp only [List.cons_append, dictGet, hk, if_false]
      exact ih (by simpa using hr)

theorem dictGet_dictSet_ne (d : List (String × Json)) (k k' : String)
    (v : Json) (h : k ≠ k') :
    dictGet (dictSet d k v) k' = dictGet d k' := by
  unfold dictSet
  by_cases hany : d.any (fun kv => kv.1 = k)
  · rw [if_pos hany]
    induction d with
    | nil => rfl
    | cons kv rest ih =>
      obtain ⟨k0, v0⟩ := kv
      by_cases hk : k0 = k
      · have hhead : (if (k0, v0).1 = k then (k, v) else (k0, v0)) = (k, v) :=
          if_pos hk
        rw [List.map_cons, hhead]
        simp only [dictGet, h, if_false]
        rw [hk] at *
        simp only [dictGet, h, if_false]
        by_cases hrest : rest.any (fun kv => kv.1 = k)
        · exact ih hrest
        · -- no further occurrence of k in rest: map is the identity there
          clear ih hany
          induction rest with
          | nil => rfl
          | cons kv2 rest2 ih2 =>
            obtain ⟨k2, v2⟩ := kv2
            have hk2 : ¬ k2 = k := by
              intro hkk
              exact hrest (by simp [List.any_cons, hkk])
            have hhead2 :
                (if (k2, v2).1 = k then (k, v) else (k2, v2)) = (k2, v2) :=
              if_neg hk2
            rw [List.map_cons, hhead2]
            simp only [dictGet]
            by_cases hk2' : k2 = k'
            · rw [if_pos hk2', if_pos hk2']
            · rw [if_neg hk2', if_neg hk2']
              exact ih2 (by
                intro hr2
                exact hrest (by simpa [List.any_cons] using Or.inr hr2))
      · have hhead : (if (k0, v0).1 = k then (k, v) else (k0, v0)) = (k0, v0) :=
          if_neg hk
        rw [List.map_cons, hhead]
        simp only [dictGet]
        by_cases hk0' : k0 = k'
        · rw [if_pos hk0', if_pos hk0']
        · rw [if_neg hk0', if_neg hk0']
          exact ih (by simpa [List.any_cons, hk] using hany)
  · rw [if_neg hany]
    induction d with
    | nil => simp [dictGet, h]
    | cons kv rest ih =>
      obtain ⟨k0, v0⟩ := kv
      simp only [List.cons_append, dictGet]
      by_cases hk0' : k0 = k'
      · rw [if_pos hk0', if_pos hk0']
      · rw [if_neg hk0', if_neg hk0']
        exact ih (by
          intro hr
          exact hany (by simpa [List.any_cons] using Or.inr hr))

theorem findMissingKey_none_iff (fields : List (List (String × Json))) :
    ∀ i, findMissingKey i fields = none ↔
      ∀ obj ∈ fields, hasKey obj "field" ∧ hasKey obj "payload" := by
  induction fields with
  | nil => intro i; simp [findMissingKey]
  | cons obj rest ih =>
    intro i
    by_cases h1 : hasKey obj "field"
    · by_cases h2 : hasKey obj "payload"
      · simp [findMissingKey, h1, h2, ih (i + 1)]
      · simp [findMissingKey, h1, h2]
    · simp [findMissingKey, h1]

/-! ## Claim theorems -/

/-- C1: for every call to `upload_files` with equal-length `abs_paths` and
`names`, the upload is content-addressed and deduplicated: the call
succeeds; a `(name, hash)` pair is registered via
`tasks.files.bulk.add-by-hash` exactly when its hash is among the remote
hashes reported for the locally computed hashes and some input file has
that name and hash; the contents uploaded via `tasks.files.bulk.upload`,
over all batches, are exactly the input files whose hash is not among the
remote hashes; every triple carries the hash computed locally from its
path; the remote hashes are exactly the locally computed hashes the server
already has; and every request is addressed to the given task. -/
theorem claim_C1_upload_files_dedup (tid : Int)
    (abs_paths names : List String) (hashFn : String → String)
    (serverHashes : List String) (h : abs_paths.length = names.length) :
    ∃ reqs, upload_files tid abs_paths names hashFn serverHashes = .ok reqs ∧
      (∀ nm hs, (nm, hs) ∈ addItems reqs ↔
        hs ∈ remoteHashes abs_paths names hashFn serverHashes ∧
          ∃ p, (p, nm) ∈ pairsOf abs_paths names ∧ hashFn p = hs) ∧
      upItems reqs = (triplesOf abs_paths names hashFn).filter
        (fun t => ¬ t.2.2 ∈ remoteHashes abs_paths names hashFn serverHashes) ∧
      (∀ t ∈ triplesOf abs_paths names hashFn, t.2.2 = hashFn t.1) ∧
      (∀ hs, hs ∈ remoteHashes abs_paths names hashFn serverHashes ↔
        hs ∈ hashesOf abs_paths names hashFn ∧ hs ∈ serverHashes) ∧
      (∀ r ∈ reqs, UploadReq.taskId r = tid) := by
  obtain ⟨reqs, he, ha, hu, ht⟩ :=
    upload_files_eq tid abs_paths names hashFn serverHashes h
  refine ⟨reqs, he, ?_, hu, ?_, ?_, ht⟩
  · intro nm hs
    rw [ha]
    exact mem_addByHashFiles abs_paths names hashFn serverHashes nm hs
  · intro t htr
    rw [triplesOf_eq] at htr
    obtain ⟨pr, _, rfl⟩ := List.mem_map.mp htr
    rfl
  · intro hs
    exact mem_remoteHashes abs_paths names hashFn serverHashes hs

/-- Witness for C1 at a concrete input: two files, the first one's hash
already on the server. -/
theorem claim_C1_upload_files_dedup_witness :
    ∃ reqs, upload_files 7 ["pa", "pb"] ["na", "nb"] id ["pa"] = .ok reqs ∧
      (∀ nm hs, (nm, hs) ∈ addItems reqs ↔
        hs ∈ remoteHashes ["pa", "pb"] ["na", "nb"] id ["pa"] ∧
          ∃ p, (p, nm) ∈ pairsOf ["pa", "pb"] ["na", "nb"] ∧ id p = hs) ∧
      upItems reqs = (triplesOf ["pa", "pb"] ["na", "nb"] id).filter
        (fun t => ¬ t.2.2 ∈ remoteHashes ["pa", "pb"] ["na", "nb"] id ["pa"]) ∧
      (∀ t ∈ triplesOf ["pa", "pb"] ["na", "nb"] id, t.2.2 = id t.1) ∧
      (∀ hs, hs ∈ remoteHashes ["pa", "pb"] ["na", "nb"] id ["pa"] ↔
        hs ∈ hashesOf ["pa", "pb"] ["na", "nb"] id ∧ hs ∈ ["pa"]) ∧
      (∀ r ∈ reqs, UploadReq.taskId r = 7) :=
  claim_C1_upload_files_dedup 7 ["pa", "pb"] ["na", "nb"] id ["pa"] rfl

/-- C2 counterexample: with a task that polls as ERROR, no status in
`[target, FINISHED, DEPLOYED, STOPPED]` is ever observed, yet the loop
does not raise `WaitingTimeExceeded` (it raises `TaskFinishedWithError`),
refuting the claimed "if and only if". -/
theorem claim_C2_counterexample :
    (∀ j, j < 1 → Status.error ∉ waitTerminal Status.queued) ∧
    (wait (fun _ => Status.error) Status.queued (some 1) (some 0) 5 5).outcome
      ≠ WaitOutcome.waitingTimeExceeded := by
  constructor
  · decide
  · decide

/-- C2 (amended): `wait` is a polling loop over the status enum performing
at most the effective `wait_attempts` checks (the default and the
replacement for a falsy 0 being `MAX_WAIT_ATTEMPTS`); it returns at the
first attempt whose status is in `[target, FINISHED, DEPLOYED, STOPPED]`
and was not ERROR; and it raises `WaitingTimeExceeded` if and only if no
attempt observes such a status or ERROR (an ERROR status raises
`TaskFinishedWithError` instead). -/
theorem claim_C2_wait_polling (getStatus : Nat → Status) (target : Status)
    (wait_attempts wait_attempt_timeout_sec : Option Nat) (MAX W : Nat) :
    (wait getStatus target wait_attempts wait_attempt_timeout_sec
        MAX W).checked.length ≤ pyOrNat wait_attempts MAX ∧
    pyOrNat none MAX = MAX ∧
    (∀ k, (wait getStatus target wait_attempts wait_attempt_timeout_sec
        MAX W).outcome = WaitOutcome.ok k →
      getStatus k ∈ waitTerminal target ∧
        ∀ j, j < k → getStatus j ≠ Status.error ∧
          getStatus j ∉ waitTerminal target) ∧
    ((wait getStatus target wait_attempts wait_attempt_timeout_sec
        MAX W).outcome = WaitOutcome.waitingTimeExceeded ↔
      ∀ j, j < pyOrNat wait_attempts MAX →
        getStatus j ≠ Status.error ∧ getStatus j ∉ waitTerminal target) := by
  refine ⟨waitFrom_checked_length _ _ _ _ 0, rfl, ?_, ?_⟩
  · intro k hk
    obtain ⟨hterm, _, _, _, hmin⟩ := waitFrom_ok _ _ _ _ 0 k hk
    exact ⟨hterm, fun j hj => hmin j (Nat.zero_le j) hj⟩
  · simpa using waitFrom_timeExceeded_iff getStatus target
      (pyOrNat wait_attempt_timeout_sec W) (pyOrNat wait_attempts MAX) 0

/-- C3 counterexample: a run of `wait` with three exhausted attempts
sleeps the same constant duration between checks; the delay does not back
off across the attempts. -/
theorem claim_C3_counterexample :
    (wait (fun _ => Status.consumed) Status.started (some 3) (some 5)
      10 10).sleeps = [5, 5, 5] ∧
    ¬ delaysBackOff
      (wait (fun _ => Status.consumed) Status.started (some 3) (some 5)
        10 10).sleeps := by
  constructor
  · decide
  · decide

/-- C3 (amended): the delay between consecutive status checks is the
constant effective `wait_attempt_timeout_sec` (every recorded sleep equals
it, with no increase); when the attempts are exhausted, the sleeps are
exactly `wait_attempts` copies of it and the `WaitingTimeExceeded`
message declares the total `wait_attempts * wait_attempt_timeout_sec`. -/
theorem claim_C3_wait_constant_delay (getStatus : Nat → Status)
    (target : Status) (wait_attempts wait_attempt_timeout_sec : Option Nat)
    (MAX W : Nat) :
    (∀ d ∈ (wait getStatus target wait_attempts wait_attempt_timeout_sec
        MAX W).sleeps, d = pyOrNat wait_attempt_timeout_sec W) ∧
    ((wait getStatus target wait_attempts wait_attempt_timeout_sec
        MAX W).outcome = WaitOutcome.waitingTimeExceeded →
      (wait getStatus target wait_attempts wait_attempt_timeout_sec
        MAX W).sleeps = List.replicate (pyOrNat wait_attempts MAX)
          (pyOrNat wait_attempt_timeout_sec W)) ∧
    waitDeclaredTotal (pyOrNat wait_attempts MAX)
        (pyOrNat wait_attempt_timeout_sec W) =
      pyOrNat wait_attempts MAX * pyOrNat wait_attempt_timeout_sec W := by
  refine ⟨fun d hd => waitFrom_sleeps_const _ _ _ _ 0 d hd,
    fun hto => waitFrom_timeExceeded_sleeps _ _ _ _ 0 hto, rfl⟩

/-- C4: the task status enum consists of exactly the eight string values
queued, consumed, started, deployed, error, finished, terminating,
stopped: the value list is exactly that list, without duplicates; every
constructible `Status` has its value in the list; every value in the list
is realized by a `Status`; and every status constant the client code
compares against is one of the eight. -/
theorem claim_C4_status_enum :
    Status.values = ["queued", "consumed", "started", "deployed", "error",
      "finished", "terminating", "stopped"] ∧
    Status.values.Nodup ∧
    (∀ st : Status, st.value ∈ Status.values) ∧
    (∀ v ∈ Status.values, ∃ st : Status, st.value = v) ∧
    (∀ st ∈ referencedStatuses, st.value ∈ Status.values) := by
  refine ⟨rfl, by decide, ?_, ?_, ?_⟩
  · intro st
    cases st <;> simp [Status.value, Status.values]
  · intro v hv
    fin_cases hv
    · exact ⟨.queued, rfl⟩
    · exact ⟨.consumed, rfl⟩
    · exact ⟨.started, rfl⟩
    · exact ⟨.deployed, rfl⟩
    · exact ⟨.error, rfl⟩
    · exact ⟨.finished, rfl⟩
    · exact ⟨.terminating, rfl⟩
    · exact ⟨.stopped, rfl⟩
  · intro st hst
    fin_cases hst <;> simp [Status.value, Status.values]

/-- C5: `send_request` is a single JSON POST/response pair: it issues
exactly one request, to `tasks.request.direct`, whose body holds the task
id, the command name, the context with `outside_request` added, the state
data, `skipResponse` and `timeout`; it returns the parsed JSON of the
response to that one request; and it passes the `retries` argument (and
`raise_error`) through to the HTTP client instead of looping itself. -/
theorem claim_C5_send_request_single_post (task_id : Int) (method : String)
    (data context : List (String × Json)) (skip_response : Bool)
    (timeout : Int) (outside_request : Bool) (retries : Nat)
    (raise_error : Bool) (respond : ApiPost → Json) :
    ∃ req, (send_request task_id method data context skip_response timeout
        outside_request retries raise_error respond).1 = [req] ∧
      req.method = "tasks.request.direct" ∧
      dictGet req.body "taskId" = some (Json.n task_id) ∧
      dictGet req.body "command" = some (Json.s method) ∧
      dictGet req.body "context" = some (Json.obj
        (dictSet context "outside_request" (Json.b outside_request))) ∧
      dictGet (dictSet context "outside_request" (Json.b outside_request))
        "outside_request" = some (Json.b outside_request) ∧
      dictGet req.body "state" = some (Json.obj data) ∧
      dictGet req.body "skipResponse" = some (Json.b skip_response) ∧
      dictGet req.body "timeout" = some (Json.n timeout) ∧
      req.retries = some retries ∧
      req.raiseError = some raise_error ∧
      (send_request task_id method data context skip_response timeout
        outside_request retries raise_error respond).2 = respond req := by
  refine ⟨_, rfl, rfl, ?_, ?_, ?_, dictGet_dictSet context _ _, ?_, ?_, ?_,
    rfl, rfl, rfl⟩ <;> rfl

/-- C6: `set_fields` raises `KeyError` exactly when some field object
lacks the `field` key or the `payload` key; in that case no HTTP request
is issued; when every object has both keys, the full list is posted to
`tasks.data.set` in a single request. -/
theorem claim_C6_set_fields_validation (task_id : Int)
    (fields : List (List (String × Json))) :
    ((set_fields task_id fields).2 = none ↔
      ∀ obj ∈ fields, hasKey obj "field" ∧ hasKey obj "payload") ∧
    ((set_fields task_id fields).2 ≠ none →
      (set_fields task_id fields).1 = []) ∧
    ((set_fields task_id fields).2 = none →
      (set_fields task_id fields).1 =
        [{ method := "tasks.data.set"
           body := [("taskId", Json.n task_id),
                    ("fields", Json.arr (fields.map Json.obj))] }]) := by
  unfold set_fields
  cases hf : findMissingKey 0 fields with
  | none =>
    exact ⟨iff_of_true rfl ((findMissingKey_none_iff fields 0).mp hf),
      fun hcontra => absurd rfl hcontra, fun _ => rfl⟩
  | some e =>
    refine ⟨?_, fun _ => rfl, by simp⟩
    rw [← findMissingKey_none_iff fields 0, hf]

/-- C8: `wait` can never return successfully when the polled status is
ERROR: `raise_for_status` raises exactly on ERROR, and a wait for
`target_status = ERROR` either ends with `TaskFinishedWithError`, returns
at an attempt whose status is FINISHED, DEPLOYED or STOPPED, or raises
`WaitingTimeExceeded`. -/
theorem claim_C8_wait_error_target (getStatus : Nat → Status)
    (wait_attempts wait_attempt_timeout_sec : Option Nat) (MAX W : Nat) :
    (∀ st : Status, (∃ e, raise_for_status st = .error e) ↔
      st = Status.error) ∧
    (∀ k, (wait getStatus Status.error wait_attempts
        wait_attempt_timeout_sec MAX W).outcome = WaitOutcome.ok k →
      getStatus k ∈ [Status.finished, Status.deployed, Status.stopped]) ∧
    ((wait getStatus Status.error wait_attempts wait_attempt_timeout_sec
        MAX W).outcome = WaitOutcome.waitingTimeExceeded ∨
      (∃ k, (wait getStatus Status.error wait_attempts
        wait_attempt_timeout_sec MAX W).outcome = WaitOutcome.ok k) ∨
      (∃ k, (wait getStatus Status.error wait_attempts
        wait_attempt_timeout_sec MAX W).outcome =
          WaitOutcome.finishedWithError k)) := by
  refine ⟨?_, ?_, ?_⟩
  · intro st
    constructor
    · rintro ⟨e, he⟩
      by_contra hne
      simp [raise_for_status, hne] at he
    · rintro rfl
      exact ⟨_, rfl⟩
  · intro k hk
    obtain ⟨hterm, hne, _, _, _⟩ := waitFrom_ok _ _ _ _ 0 k hk
    simp only [waitTerminal, List.mem_cons, List.not_mem_nil,
      or_false] at hterm
    rcases hterm with h | h | h | h <;>
      first
        | exact absurd h hne
        | simp [h]
  · cases ho : (wait getStatus Status.error wait_attempts
        wait_attempt_timeout_sec MAX W).outcome with
    | ok k => exact Or.inr (Or.inl ⟨k, rfl⟩)
    | finishedWithError k => exact Or.inr (Or.inr ⟨k, rfl⟩)
    | waitingTimeExceeded => exact Or.inl rfl

/-- C10: `update_status` accepts both `Status` members and raw strings,
stringifying the argument first (a member stringifies to its enum value);
it raises `ValueError` if and only if the stringified status is not one
of the eight allowed values (so it never raises for an enum member), and
it posts to `tasks.status.update` exactly when the value is allowed. -/
theorem claim_C10_update_status (task_id : Int)
    (status : Sum Status String) :
    ((update_status task_id status).2 = none ↔
      pyStr status ∈ Status.values) ∧
    (∀ st : Status, pyStr (Sum.inl st) = st.value) ∧
    (∀ st : Status, (update_status task_id (Sum.inl st)).2 = none) ∧
    ((update_status task_id status).2 = none →
      (update_status task_id status).1 =
        [{ method := "tasks.status.update"
           body := [("id", Json.n task_id),
                    ("status", Json.s (pyStr status))] }]) ∧
    ((update_status task_id status).2 ≠ none →
      (update_status task_id status).1 = []) := by
  refine ⟨?_, fun st => rfl, ?_, ?_, ?_⟩
  · unfold update_status
    by_cases h : pyStr status ∈ Status.values
    · simp [h]
    · simp [h]
  · intro st
    have hmem : pyStr (Sum.inl st) ∈ Status.values := by
      cases st <;> simp [pyStr, Status.value, Status.values]
    simp [update_status, hmem]
  · intro h
    unfold update_status at h ⊢
    by_cases hm : pyStr status ∈ Status.values
    · simp [hm]
    · simp [hm] at h
  · intro h
    unfold update_status at h ⊢
    by_cases hm : pyStr status ∈ Status.values
    · simp [hm] at h
    · simp [hm]

/-- C9: `start` raises `ValueError` unless exactly one of `app_id` and
`module_id` is provided — it raises when both are given and when neither
is, and in either error case no HTTP request is made; when exactly one is
given, that one is included in the posted data (and the other's key is
absent). -/
theorem claim_C9_start_exactly_one (agent_id : Int)
    (app_id module_id : Option Int) (workspace_id : Option Int)
    (description : String) (params : Option Json) (log_level : String)
    (users_ids : Option (List Int)) (app_version : String) (is_branch : Bool)
    (task_name : String) (restart_policy : String) (proxy_keep_url : Bool)
    (redirect_requests : List (String × Int)) (limit_by_workspace : Bool) :
    ((start agent_id app_id workspace_id description params log_level
        users_ids app_version is_branch task_name restart_policy
        proxy_keep_url module_id redirect_requests limit_by_workspace).2
          ≠ none ↔ app_id.isSome = module_id.isSome) ∧
    ((start agent_id app_id workspace_id description params log_level
        users_ids app_version is_branch task_name restart_policy
        proxy_keep_url module_id redirect_requests limit_by_workspace).2
          ≠ none →
      (start agent_id app_id workspace_id description params log_level
        users_ids app_version is_branch task_name restart_policy
        proxy_keep_url module_id redirect_requests limit_by_workspace).1
          = []) ∧
    (∀ a, app_id = some a → module_id = none →
      ∃ r, (start agent_id app_id workspace_id description params log_level
          users_ids app_version is_branch task_name restart_policy
          proxy_keep_url module_id redirect_requests limit_by_workspace).1
            = [r] ∧
        r.method = "tasks.run.app" ∧
        dictGet r.body "appId" = some (Json.n a) ∧
        dictGet r.body "moduleId" = none) ∧
    (∀ m, app_id = none → module_id = some m →
      ∃ r, (start agent_id app_id workspace_id description params log_level
          users_ids app_version is_branch task_name restart_policy
          proxy_keep_url module_id redirect_requests limit_by_workspace).1
            = [r] ∧
        r.method = "tasks.run.app" ∧
        dictGet r.body "moduleId" = some (Json.n m) ∧
        dictGet r.body "appId" = none) := by
  cases app_id with
  | none =>
    cases module_id with
    | none =>
      refine ⟨by simp [start], fun _ => rfl, ?_, ?_⟩
      · intro a ha _; cases ha
      · intro m _ hm; cases hm
    | some m =>
      refine ⟨by simp [start], ?_, ?_, ?_⟩
      · intro hcontra
        exact absurd (show (start agent_id none workspace_id description
          params log_level users_ids app_version is_branch task_name
          restart_policy proxy_keep_url (some m) redirect_requests
          limit_by_workspace).2 = none from rfl) hcontra
      · intro a ha _; cases ha
      · intro m' _ hm
        cases hm
        refine ⟨_, rfl, rfl, ?_, ?_⟩
        · simp only [startData]
          exact dictGet_dictSet _ _ _
        · simp only [startData]
          rw [dictGet_dictSet_ne _ _ _ _ (by decide)]
          by_cases hrr : redirect_requests.length > 0
          · rw [if_pos hrr, dictGet_dictSet_ne _ _ _ _ (by decide)]
            rfl
          · rw [if_neg hrr]
            rfl
  | some a =>
    cases module_id with
    | none =>
      refine ⟨by simp [start], ?_, ?_, ?_⟩
      · intro hcontra
        exact absurd (show (start agent_id (some a) workspace_id description
          params log_level users_ids app_version is_branch task_name
          restart_policy proxy_keep_url none redirect_requests
          limit_by_workspace).2 = none from rfl) hcontra
      · intro a' ha hm
        cases ha
        refine ⟨_, rfl, rfl, ?_, ?_⟩
        · simp only [startData]
          exact dictGet_dictSet _ _ _
        · simp only [startData]
          rw [dictGet_dictSet_ne _ _ _ _ (by decide)]
          by_cases hrr : redirect_requests.length > 0
          · rw [if_pos hrr, dictGet_dictSet_ne _ _ _ _ (by decide)]
            rfl
          · rw [if_neg hrr]
            rfl
      · intro m _ hm; cases hm
    | some m =>
      refine ⟨by simp [start], fun _ => rfl, ?_, ?_⟩
      · intro a' _ hm; cases hm
      · intro m' ha _; cases ha

end SlyTask

namespace SlyWidgets

/-- C7: every `Flexbox` serializes to JSON with `get_json_data` exactly
`{"center": center_content}` (its single key is `"center"`) and
`get_json_state` exactly `{}`, for every combination of widgets, gap,
center_content and vertical_alignment; in particular neither `gap` nor
`vertical_alignment` appears in the JSON data or state. -/
theorem claim_C7_flexbox_json (W : Type) (f : Flexbox W) :
    f.get_json_data =
      SlyTask.Json.obj [("center", SlyTask.Json.b f.center_content)] ∧
    (f.get_json_data).keys = ["center"] ∧
    f.get_json_state = SlyTask.Json.obj [] ∧
    (f.get_json_state).keys = [] :=
  ⟨rfl, rfl, rfl, rfl⟩

end SlyWidgets
